import Mathlib

/-!
Verification of the affective-memory engine and resource arbiter of the
LOVE_YOURSELF installation code (src/captioner/memory.py,
src/captioner/captioner.py, src/drawing/drawing.py,
src/utils/resource_manager.py), as a shallow embedding in Lean 4.

Python floats are modelled as rationals, wall-clock instants as rationals,
Python dicts (insertion-ordered, unique keys) as association lists, and
Python strings as Lean strings (the code only ever manipulates ASCII
captions/labels; Python `str.lower` / `str.strip` are modelled by
`pyLower` / `pyStrip` below).
-/

namespace LoveYourself

/-! ### Insertion-ordered association lists (model of Python dict / Counter) -/

/-- Lookup in an association list: value of the first entry with the key. -/
def alookup {α : Type} (l : List (String × α)) (k : String) : Option α :=
  (l.find? (fun p => p.1 = k)).map (·.2)

/-- Dict assignment `d[k] = v`: update the entry in place if the key is
present (Python dicts keep the original position), else append at the end. -/
def aset {α : Type} (l : List (String × α)) (k : String) (v : α) :
    List (String × α) :=
  match l with
  | [] => [(k, v)]
  | p :: t => if p.1 = k then (k, v) :: t else p :: aset t k v

theorem alookup_nil {α : Type} (k : String) :
    alookup ([] : List (String × α)) k = none := rfl

theorem alookup_cons {α : Type} (p : String × α) (l : List (String × α)) (k : String) :
    alookup (p :: l) k = if p.1 = k then some p.2 else alookup l k := by
  by_cases h : p.1 = k <;> simp [alookup, List.find?, h]

theorem alookup_aset_self {α : Type} (l : List (String × α)) (k : String) (v : α) :
    alookup (aset l k v) k = some v := by
  induction l with
  | nil => simp [aset, alookup_cons]
  | cons p t ih =>
    by_cases h : p.1 = k
    · simp [aset, h, alookup_cons]
    · simp [aset, h, alookup_cons, ih]

theorem alookup_aset_ne {α : Type} (l : List (String × α)) (k m : String) (v : α)
    (h : k ≠ m) : alookup (aset l m v) k = alookup l k := by
  have hmk : ¬ m = k := fun hc => h hc.symm
  induction l with
  | nil => simp [aset, alookup_cons, alookup_nil, hmk]
  | cons p t ih =>
    by_cases hp : p.1 = m
    · simp only [aset, if_pos hp]
      rw [alookup_cons, alookup_cons]
      simp [hp, hmk]
    · simp only [aset, if_neg hp]
      rw [alookup_cons, alookup_cons, ih]

theorem aset_keys {α : Type} (l : List (String × α)) (k : String) (v : α) :
    (aset l k v).map Prod.fst = if l.any (fun p => p.1 = k) then l.map Prod.fst
      else l.map Prod.fst ++ [k] := by
  induction l with
  | nil => simp [aset]
  | cons p t ih =>
    by_cases hp : p.1 = k
    · simp [aset, hp]
    · simp only [aset, if_neg hp, List.map_cons, List.any_cons]
      rw [ih]
      by_cases ht : t.any (fun q => q.1 = k) <;> simp [ht, hp]

/-- Increment of a `collections.Counter` entry: a missing key counts as 0. -/
def counterIncr (c : List (String × Nat)) (k : String) : List (String × Nat) :=
  aset c k ((alookup c k).getD 0 + 1)

/-- Python set insertion (`s.add(x)`), modelled as append-if-absent. -/
def sadd (l : List String) (k : String) : List String :=
  if k ∈ l then l else l ++ [k]

/-! ### Tokenization and string helpers (models of the Python string ops used) -/

/-- A regex `\w` character over the ASCII captions the program handles. -/
def isWordChar (c : Char) : Bool := c.isAlphanum || c = '_'

/-- Helper for `pyWords`: scans the characters, accumulating the current
word (reversed) in `acc`. -/
def pyWordsAux : List Char → List Char → List String
  | [], acc => if acc.isEmpty then [] else [String.mk acc.reverse]
  | c :: cs, acc =>
    if isWordChar c then pyWordsAux cs (c :: acc)
    else if acc.isEmpty then pyWordsAux cs []
    else String.mk acc.reverse :: pyWordsAux cs []

/-- `re.findall(r"\b\w+\b", s)`: the maximal runs of word characters, in
order, one entry per occurrence. -/
def pyWords (s : String) : List String := pyWordsAux s.toList []

/-- Python `s.lower()` on the ASCII text the program handles. -/
def pyLower (s : String) : String := ⟨s.toList.map Char.toLower⟩

/-- Python `s.strip()`: remove leading and trailing whitespace. -/
def pyStrip (s : String) : String :=
  ⟨((s.toList.dropWhile Char.isWhitespace).reverse.dropWhile Char.isWhitespace).reverse⟩

/-- Python `s.rstrip(c)`: remove ALL trailing occurrences of `c`. -/
def pyRstrip (c : Char) (s : String) : String :=
  ⟨(s.toList.reverse.dropWhile (· = c)).reverse⟩

/-- Helper for `pyTitle`: the `Bool` records whether the previous character
was alphabetic. -/
def pyTitleAux : Bool → List Char → List Char
  | _, [] => []
  | prevAlpha, c :: cs =>
    if c.isAlpha then
      (if prevAlpha then c.toLower else c.toUpper) :: pyTitleAux true cs
    else c :: pyTitleAux false cs

/-- Python `s.title()` on ASCII text: first letter of each alphabetic run
uppercased, the rest lowercased. -/
def pyTitle (s : String) : String := ⟨pyTitleAux false s.toList⟩

/-- Python `int(a // b)` for the non-negative durations used here. -/
def pyFloorDiv (a b : ℚ) : Int := Int.floor (a / b)

/-- `describe_duration` (src/utils/continuity.py): poetic rendering of the
time elapsed since `tsStart`; `elapsed_seconds` reads the clock, modelled by
the explicit `now` argument. -/
def describe_duration (now tsStart : ℚ) : String :=
  let seconds := now - tsStart
  if seconds < 60 then "less than a minute"
  else if seconds < 3600 then
    let mins := pyFloorDiv seconds 60
    toString mins ++ " minute" ++ (if 1 < mins then "s" else "")
  else if seconds < 86400 then
    let hours := pyFloorDiv seconds 3600
    let mins := pyFloorDiv (seconds - 3600 * (hours : ℚ)) 60
    if mins = 0 then toString hours ++ " hour" ++ (if 1 < hours then "s" else "")
    else toString hours ++ " hour" ++ (if 1 < hours then "s" else "") ++ " and " ++
      toString mins ++ " minute" ++ (if mins ≠ 1 then "s" else "")
  else
    let days := pyFloorDiv seconds 86400
    let hours := pyFloorDiv (seconds - 86400 * (days : ℚ)) 3600
    if hours = 0 then toString days ++ " day" ++ (if 1 < days then "s" else "")
    else toString days ++ " day" ++ (if 1 < days then "s" else "") ++ " and " ++
      toString hours ++ " hour" ++ (if hours ≠ 1 then "s" else "")

/-! ### MemoryMixin data model (src/captioner/memory.py) -/

/-- Constants of src/captioner/memory.py lines 25-31 (0.25 = 1/4, etc.). -/
def MAX_MEMORY_ENTRIES : Nat := 30

def BELIEF_THRESHOLD : Nat := 7

def BELIEF_FADE_TIME : ℚ := 3600 * 6

def BELIEF_FORM_MIN_DAYS : ℚ := 1 / 4

def BOREDOM_THRESHOLD : ℚ := 7 / 10

def CAPTION_SAVE_THRESHOLD : ℚ := 3 / 10

def CONFIDENCE_THRESHOLD : ℚ := 13 / 20

/-- One memory-queue entry (the dict built in `observe`; `derived_from` is
omitted when absent and never read by the verified operations). -/
structure Entry where
  timestamp : Int
  text : String
  mood : ℚ
  image : String
  kind : String
deriving DecidableEq

/-- One belief record (`self.beliefs[motif]` dict). -/
structure Belief where
  strength : ℚ
  firstFormed : ℚ
  lastReinforced : ℚ
deriving DecidableEq

/-- The mutable state of `MemoryMixin.__init__` (`session_start` is never
read by the operations verified here and is omitted). -/
structure MemState where
  memoryQueue : List Entry
  longMemory : List Entry
  motifCounter : List (String × Nat)
  motifFirstSeen : List (String × ℚ)
  motifLastSeen : List (String × ℚ)
  motifFocusStart : List (String × ℚ)
  currentMotifs : List String
  motifConfidence : List (String × ℚ)
  motifConfirmed : List (String × Bool)
  beliefs : List (String × Belief)
  beliefHistory : List String
  noveltyScore : ℚ
  boredom : ℚ
deriving DecidableEq

/-- The freshly initialized mixin: empty maps, novelty 1.0, boredom 0.0. -/
def initMemState : MemState :=
  ⟨[], [], [], [], [], [], [], [], [], [], [], 1, 0⟩

/-- Body of the per-word loop of `extract_motifs_from_caption`
(src/captioner/memory.py lines 148-157). -/
def absorbTextualWord (now : ℚ) (word : String) (s : MemState) : MemState :=
  if 3 < word.length then
    { s with
      motifCounter := counterIncr s.motifCounter word
      motifFirstSeen :=
        if (alookup s.motifFirstSeen word).isNone then aset s.motifFirstSeen word now
        else s.motifFirstSeen
      motifLastSeen := aset s.motifLastSeen word now
      currentMotifs := sadd s.currentMotifs word
      motifConfidence :=
        if (alookup s.motifConfidence word).isNone then aset s.motifConfidence word (2/5)
        else s.motifConfidence
      motifConfirmed :=
        if (alookup s.motifConfidence word).isNone then aset s.motifConfirmed word false
        else s.motifConfirmed }
  else s

/-- `extract_motifs_from_caption` (src/captioner/memory.py lines 145-157):
every occurrence of every word of length > 3 in the lowercased caption is
absorbed; `now()` is the explicit clock argument. -/
def extract_motifs_from_caption (now : ℚ) (caption : String) (s : MemState) : MemState :=
  (pyWords (pyLower caption)).foldl (fun st word => absorbTextualWord now word st) s

/-- `absorb_motif` (src/captioner/memory.py lines 131-143). -/
def absorb_motif (now : ℚ) (motif : String) (s : MemState) : MemState :=
  let motif := pyLower (pyStrip motif)
  if motif = "" ∨ motif.length < 3 then s
  else
    { s with
      motifCounter := counterIncr s.motifCounter motif
      motifFirstSeen :=
        if (alookup s.motifFirstSeen motif).isNone then aset s.motifFirstSeen motif now
        else s.motifFirstSeen
      motifLastSeen := aset s.motifLastSeen motif now
      currentMotifs := sadd s.currentMotifs motif
      motifConfidence :=
        if (alookup s.motifConfidence motif).isNone then aset s.motifConfidence motif (2/5)
        else s.motifConfidence
      motifConfirmed :=
        if (alookup s.motifConfidence motif).isNone then aset s.motifConfirmed motif false
        else s.motifConfirmed }

/-- `extract_semantic_motifs` (src/captioner/memory.py lines 159-165) calls
the spaCy model; when `en_core_web_sm` is unavailable the module sets
`_nlp = None` (lines 36-39) and the function returns immediately.  The
embedding models that fallback path, so the semantic extractor is the
identity on the state. -/
def extract_semantic_motifs (_caption : String) (s : MemState) : MemState := s

/-- The motif key stored by `absorb_detection`: `label.lower().rstrip("s")`
(src/captioner/memory.py line 122). -/
def normalizeLabel (label : String) : String := pyRstrip 's' (pyLower label)

/-- Body of the per-label loop of `absorb_detection`
(src/captioner/memory.py lines 121-129). -/
def absorbLabel (ts : ℚ) (label : String) (s : MemState) : MemState :=
  let n := normalizeLabel label
  { s with
    motifCounter := counterIncr s.motifCounter n
    motifFirstSeen :=
      if (alookup s.motifFirstSeen n).isNone then aset s.motifFirstSeen n ts
      else s.motifFirstSeen
    motifLastSeen := aset s.motifLastSeen n ts
    currentMotifs := sadd s.currentMotifs n
    motifConfidence := aset s.motifConfidence n 1
    motifConfirmed := aset s.motifConfirmed n true }

/-- `absorb_detection` (src/captioner/memory.py lines 119-129); the caller's
timestamp (or `now()`) is the explicit `ts` argument. -/
def absorb_detection (ts : ℚ) (labels : List String) (s : MemState) : MemState :=
  labels.foldl (fun st l => absorbLabel ts l st) s

/-- `update_motif_focus_streak` (src/captioner/memory.py lines 101-104). -/
def update_motif_focus_streak (now : ℚ) (motif : String) (s : MemState) : MemState :=
  if (alookup s.motifFocusStart motif).isNone then
    { s with motifFocusStart := aset s.motifFocusStart motif now }
  else s

/-- One iteration of the promotion loop of `update_beliefs`
(src/captioner/memory.py lines 175-184), acting on the beliefs dict. -/
def beliefUpdateStep (now : ℚ) (fs : List (String × ℚ))
    (bel : List (String × Belief)) (item : String × Nat) : List (String × Belief) :=
  let ageDays := (now - ((alookup fs item.1).getD now)) / 86400
  if BELIEF_THRESHOLD ≤ item.2 ∧ BELIEF_FORM_MIN_DAYS ≤ ageDays then
    let prev := ((alookup bel item.1).map Belief.strength).getD (1/2)
    aset bel item.1 ⟨min 1 (prev + 1/50), (alookup fs item.1).getD now, now⟩
  else bel

/-- The sentence built for one belief in the `belief_history` comprehension
(src/captioner/memory.py lines 185-192).  The source indexes
`self.motif_first_seen[motif]` directly; beliefs are only ever created for
motifs present in that dict, so the `getD 0` default is never reached on
reachable states. -/
def renderBelief (now : ℚ) (fs : List (String × ℚ)) (motif : String)
    (data : Belief) : String :=
  if data.strength < 19/20 then
    "I keep noticing " ++ motif ++ " (" ++
      describe_duration now ((alookup fs motif).getD 0) ++ ")."
  else
    pyTitle motif ++ " has become important to me (" ++
      describe_duration now ((alookup fs motif).getD 0) ++ ")."

/-- `update_beliefs` (src/captioner/memory.py lines 173-192). -/
def update_beliefs (now : ℚ) (s : MemState) : MemState :=
  let bel := s.motifCounter.foldl (beliefUpdateStep now s.motifFirstSeen) s.beliefs
  { s with
    beliefs := bel
    beliefHistory := bel.map (fun p => renderBelief now s.motifFirstSeen p.1 p.2) }

/-- `fade_old_beliefs` (src/captioner/memory.py lines 194-205): every belief
whose motif has not been seen for more than `BELIEF_FADE_TIME` seconds loses
0.02 strength; those that drop below 0.2 are deleted, each appending a
fading note to `belief_history`. -/
def fade_old_beliefs (now : ℚ) (s : MemState) : MemState :=
  let decayed := s.beliefs.map (fun p =>
    if BELIEF_FADE_TIME < now - (alookup s.motifLastSeen p.1).getD 0
    then (p.1, { p.2 with strength := p.2.strength - 1/50 }) else p)
  let faded := (decayed.filter (fun p =>
    decide (BELIEF_FADE_TIME < now - (alookup s.motifLastSeen p.1).getD 0) &&
    decide (p.2.strength < 1/5))).map Prod.fst
  { s with
    beliefs := decayed.filter (fun p => ! faded.contains p.1)
    beliefHistory := s.beliefHistory ++
      faded.map (fun m => "I feel less attached to " ++ m ++ " lately.") }

/-- `estimate_novelty` (src/captioner/memory.py lines 207-214): 1.0 with
fewer than two queued entries, else 1.0 / 0.0 by comparing the lowercased
texts of the last two entries. -/
def estimate_novelty (s : MemState) : MemState :=
  if s.memoryQueue.length < 2 then { s with noveltyScore := 1 }
  else
    let cur := pyLower (((s.memoryQueue.getLast?).map Entry.text).getD "")
    let prev := pyLower (((s.memoryQueue.dropLast.getLast?).map Entry.text).getD "")
    { s with noveltyScore := if cur ≠ prev then 1 else 0 }

/-- `update_boredom` (src/captioner/memory.py lines 216-217). -/
def update_boredom (s : MemState) : MemState :=
  { s with boredom := if s.noveltyScore < 3/10 then min 1 (s.boredom + 1/10)
                      else max 0 (s.boredom - 1/20) }

/-- `deque(maxlen=30).append`: append at the right, evict from the left past
the capacity. -/
def pushBounded (cap : Nat) (q : List Entry) (e : Entry) : List Entry :=
  let q2 := q ++ [e]
  if cap < q2.length then q2.drop (q2.length - cap) else q2

/-- `observe` (src/captioner/memory.py lines 68-99) with the default
`file`/`memory_type`/`derived_from` arguments (none of which is read by the
verified operations); `now()` is the explicit clock argument. -/
def observe (text : String) (mood : ℚ) (now : ℚ) (s : MemState) : MemState :=
  let entry : Entry := ⟨Int.floor now, pyStrip text, mood, "", "observation"⟩
  let s1 := { s with
    memoryQueue := pushBounded MAX_MEMORY_ENTRIES s.memoryQueue entry
    longMemory := s.longMemory ++ [entry] }
  let s2 := extract_motifs_from_caption now text s1
  let s3 := extract_semantic_motifs text s2
  let s4 := s3.currentMotifs.foldl (fun st m => update_motif_focus_streak now m st) s3
  let s5 := update_beliefs now s4
  let s6 := estimate_novelty s5
  let s7 := update_boredom s6
  fade_old_beliefs now s7

/-- The two entry points that feed the motif substrate: a text observation
(`observe`) or a detector label batch (`absorb_detection`). -/
inductive MemEvent where
  | obs (text : String) (mood : ℚ) (now : ℚ)
  | det (labels : List String) (now : ℚ)

/-- Apply one event to the memory state. -/
def applyEvent (s : MemState) : MemEvent → MemState
  | .obs t m n => observe t m n s
  | .det ls n => absorb_detection n ls s

/-- Run a sequence of events from the freshly initialized state. -/
def runEvents (evs : List MemEvent) : MemState := evs.foldl applyEvent initMemState

/-! ### DrawingController (src/drawing/drawing.py) -/

/-- Python substring containment (`needle in hay`). -/
def pyContains (hay needle : String) : Prop := needle.toList <:+: hay.toList

instance (hay needle : String) : Decidable (pyContains hay needle) :=
  List.decidableInfix _ _

/-- The distress keys scanned by `should_draw`
(src/drawing/drawing.py line 48). -/
def distressKeys : List String :=
  ["i feel stuck", "i need to express", "nothing is changing"]

/-- The mutable state of `DrawingController` relevant to the gate decision
(`last_drawing_time`, `cooldown`). -/
structure DrawingState where
  lastDrawingTime : ℚ
  cooldown : ℚ
deriving DecidableEq

/-- `DrawingController.ready_to_draw` (src/drawing/drawing.py lines 40-41):
`time.time()` is the explicit `now` argument. -/
def ready_to_draw (now : ℚ) (st : DrawingState) : Bool :=
  decide (st.cooldown < now - st.lastDrawingTime)

/-- `DrawingController.should_draw` (src/drawing/drawing.py lines 43-50).
`reflection` is an optional string; Python's truthiness test `if reflection`
rejects both `None` and the empty string. -/
def should_draw (now : ℚ) (st : DrawingState) (mood novelty boredom : ℚ)
    (reflection : Option String) : Bool :=
  if ¬ ready_to_draw now st then false
  else if 13/20 < novelty ∨ 7/10 < boredom ∨ mood < 3/10 then true
  else if (match reflection with
           | none => false
           | some r =>
             decide (r ≠ "") && distressKeys.any (fun key => decide (pyContains (pyLower r) key)))
  then true
  else false

/-! ### Mood drift (src/captioner/captioner.py lines 112-114) -/

/-- The spec-level first-order filter `driftMood(current, target, gain)`:
move `current` toward `target` by `gain * (target - current)`. -/
def driftMood (current target gain : ℚ) : ℚ := current + gain * (target - current)

/-- The drift step hard-coded in `Captioner._process_frame`
(src/captioner/captioner.py lines 113-114): `drift = 0.25;
current_mood += drift * (mood_val - current_mood)`. -/
def driftStep (current moodVal : ℚ) : ℚ := current + 1/4 * (moodVal - current)

/-- Iterated drift toward a fixed target. -/
def moodIter (target gain : ℚ) (n : Nat) (current : ℚ) : ℚ :=
  (fun x => driftMood x target gain)^[n] current

/-! ### ResourceManager (src/utils/resource_manager.py) -/

/-- `ResourcePriority` (lines 22-26). -/
inductive ResourcePriority where
  | high
  | medium
  | low
deriving DecidableEq

/-- The `Enum` values HIGH = 1, MEDIUM = 2, LOW = 3. -/
def ResourcePriority.val : ResourcePriority → Nat
  | .high => 1
  | .medium => 2
  | .low => 3

/-- `ResourceRequest` (lines 29-51); `callback` is behavioural and not part
of the ordering, `request_id` is a string of the creation time. -/
structure ResourceRequest where
  priority : ResourcePriority
  operationName : String
  timeout : ℚ
  createdAt : ℚ
deriving DecidableEq

/-- `ResourceRequest.__lt__` (lines 45-51): priority value ascending, then
creation time ascending. -/
def reqLT (a b : ResourceRequest) : Bool :=
  if a.priority.val ≠ b.priority.val then decide (a.priority.val < b.priority.val)
  else decide (a.createdAt < b.createdAt)

/-- `queue.PriorityQueue.get`: a least element under `__lt__`; modelled as
the leftmost minimal element (the least element is unique whenever the
`(priority, createdAt)` keys are distinct). -/
def findMin (l : List ResourceRequest) : Option ResourceRequest :=
  match l with
  | [] => none
  | x :: xs => some (xs.foldl (fun b y => if reqLT y b then y else b) x)

theorem reqLT_iff (a b : ResourceRequest) :
    reqLT a b = true ↔ (a.priority.val < b.priority.val ∨
      (a.priority.val = b.priority.val ∧ a.createdAt < b.createdAt)) := by
  unfold reqLT
  by_cases hp : a.priority.val = b.priority.val
  · simp [hp]
  · simp only [ne_eq, hp, not_false_iff, if_true, decide_eq_true_eq]
    constructor
    · exact fun h => Or.inl h
    · rintro (h | ⟨h, _⟩)
      · exact h
      · exact h.elim


theorem reqLT_irrefl (a : ResourceRequest) : reqLT a a = false := by
  rw [Bool.eq_false_iff]
  intro h
  rcases (reqLT_iff a a).mp h with h | ⟨_, h⟩
  · omega
  · exact absurd h (lt_irrefl _)

theorem reqLT_trans (a b c : ResourceRequest) (hab : reqLT a b = true)
    (hbc : reqLT b c = true) : reqLT a c = true := by
  rw [reqLT_iff] at hab hbc ⊢
  rcases hab with h1 | ⟨h1, h1t⟩ <;> rcases hbc with h2 | ⟨h2, h2t⟩
  · exact Or.inl (h1.trans h2)
  · exact Or.inl (h2 ▸ h1)
  · exact Or.inl (h1 ▸ h2)
  · exact Or.inr ⟨h1.trans h2, h1t.trans h2t⟩

theorem reqLT_le_lt_trans (a b c : ResourceRequest) (hba : reqLT b a = false)
    (hbc : reqLT b c = true) : reqLT a c = true := by
  have hba' : ¬ (b.priority.val < a.priority.val ∨
      (b.priority.val = a.priority.val ∧ b.createdAt < a.createdAt)) := by
    rw [← reqLT_iff]
    simp [hba]
  push_neg at hba'
  obtain ⟨hle, h2⟩ := hba'
  rw [reqLT_iff] at hbc ⊢
  rcases hbc with h3 | ⟨h3, h3t⟩
  · exact Or.inl (lt_of_le_of_lt hle h3)
  · rcases Nat.eq_or_lt_of_le hle with heq | hlt
    · exact Or.inr ⟨heq.trans h3, lt_of_le_of_lt (h2 heq.symm) h3t⟩
    · exact Or.inl (h3 ▸ hlt)

/-- The running minimum kept by `findMin` is an element of the list. -/
theorem foldMin_mem (xs : List ResourceRequest) (x : ResourceRequest) :
    xs.foldl (fun b y => if reqLT y b then y else b) x ∈ x :: xs := by
  induction xs generalizing x with
  | nil => exact .head _
  | cons z zs ih =>
    simp only [List.foldl_cons]
    by_cases hz : reqLT z x = true
    · simp only [if_pos hz]
      exact .tail _ (ih z)
    · rw [if_neg hz]
      rcases List.mem_cons.mp (ih x) with h | h
      · rw [h]
        exact .head _
      · exact .tail _ (.tail _ h)

/-- No element of the list is strictly below the running minimum. -/
theorem foldMin_min (xs : List ResourceRequest) (x : ResourceRequest) :
    ∀ y ∈ x :: xs, reqLT y (xs.foldl (fun b z => if reqLT z b then z else b) x) = false := by
  induction xs generalizing x with
  | nil =>
    intro y hy
    rw [List.mem_singleton.mp hy]
    exact reqLT_irrefl _
  | cons z zs ih =>
    intro y hy
    simp only [List.foldl_cons]
    by_cases hzx : reqLT z x = true
    · simp only [if_pos hzx]
      rcases List.mem_cons.mp hy with rfl | hy2
      · -- y = x, the discarded element: x cannot be below the result,
        -- else z < x, x < result, yet ¬ z < result.
        have hz := ih z z (.head _)
        rw [Bool.eq_false_iff]
        intro hxr
        exact absurd (reqLT_trans _ _ _ hzx hxr) (by simp [hz])
      · exact ih z y hy2
    · rw [if_neg hzx]
      rcases List.mem_cons.mp hy with rfl | hy2
      · exact ih y y (.head _)
      · rcases List.mem_cons.mp hy2 with rfl | hy3
        · -- y = z, discarded because ¬ z < x: if z were below the result,
          -- x ≤ z < result would put x below the result too.
          have hx := ih x x (.head _)
          rw [Bool.eq_false_iff]
          intro hzr
          exact absurd (reqLT_le_lt_trans _ _ _ (Bool.eq_false_iff.mpr hzx) hzr) (by simp [hx])
        · exact ih x y (.tail _ hy3)

theorem findMin_mem (l : List ResourceRequest) (m : ResourceRequest)
    (h : findMin l = some m) : m ∈ l := by
  match l with
  | [] => simp [findMin] at h
  | x :: xs =>
    simp only [findMin, Option.some.injEq] at h
    exact h ▸ foldMin_mem xs x

theorem findMin_min (l : List ResourceRequest) (m : ResourceRequest)
    (h : findMin l = some m) : ∀ x ∈ l, reqLT x m = false := by
  match l with
  | [] => simp [findMin] at h
  | x :: xs =>
    simp only [findMin, Option.some.injEq] at h
    exact h ▸ foldMin_min xs x

theorem findMin_eq_none (l : List ResourceRequest) :
    findMin l = none ↔ l = [] := by
  cases l <;> simp [findMin]

/-- The order in which `_queue_worker` dequeues a set of pending requests
(src/utils/resource_manager.py lines 108-163 with the `PriorityQueue` of
line 80): repeatedly pop a least request under `ResourceRequest.__lt__`. -/
def grantOrder (l : List ResourceRequest) : List ResourceRequest :=
  match h : findMin l with
  | none => []
  | some m => m :: grantOrder (l.erase m)
termination_by l.length
decreasing_by
  have hm : m ∈ l := findMin_mem l m h
  have hlen : (l.erase m).length = l.length - 1 := List.length_erase_of_mem hm
  have hpos : 0 < l.length := List.length_pos.mpr (List.ne_nil_of_mem hm)
  omega

theorem grantOrder_nil : grantOrder [] = [] := by
  rw [grantOrder]
  rfl

theorem grantOrder_cons_of_findMin (l : List ResourceRequest) (m : ResourceRequest)
    (h : findMin l = some m) : grantOrder l = m :: grantOrder (l.erase m) := by
  rw [grantOrder]
  split
  · rename_i heq
    rw [heq] at h
    exact absurd h (by simp)
  · rename_i m' heq
    rw [heq] at h
    cases h
    rfl

theorem grantOrder_perm_aux : ∀ (n : Nat) (l : List ResourceRequest),
    l.length ≤ n → List.Perm (grantOrder l) l
  | 0, l, hl => by
    have hnil : l = [] := List.length_eq_zero.mp (Nat.le_zero.mp hl)
    subst hnil
    rw [grantOrder_nil]
  | n + 1, l, hl => by
    cases hfm : findMin l with
    | none =>
      have hnil : l = [] := (findMin_eq_none l).mp hfm
      subst hnil
      rw [grantOrder_nil]
    | some m =>
      rw [grantOrder_cons_of_findMin l m hfm]
      have hm := findMin_mem l m hfm
      have hlen : (l.erase m).length ≤ n := by
        have h1 := List.length_erase_of_mem hm
        have h2 := List.length_pos.mpr (List.ne_nil_of_mem hm)
        omega
      exact ((grantOrder_perm_aux n (l.erase m) hlen).cons m).trans
        (List.perm_cons_erase hm).symm

/-- The dequeue order is a permutation of the pending requests. -/
theorem grantOrder_perm (l : List ResourceRequest) : List.Perm (grantOrder l) l :=
  grantOrder_perm_aux l.length l le_rfl

theorem grantOrder_pairwise_aux : ∀ (n : Nat) (l : List ResourceRequest),
    l.length ≤ n → (grantOrder l).Pairwise (fun a b => reqLT b a = false)
  | 0, l, hl => by
    have hnil : l = [] := List.length_eq_zero.mp (Nat.le_zero.mp hl)
    subst hnil
    rw [grantOrder_nil]
    exact List.Pairwise.nil
  | n + 1, l, hl => by
    cases hfm : findMin l with
    | none =>
      have hnil : l = [] := (findMin_eq_none l).mp hfm
      subst hnil
      rw [grantOrder_nil]
      exact List.Pairwise.nil
    | some m =>
      rw [grantOrder_cons_of_findMin l m hfm]
      have hm := findMin_mem l m hfm
      have hlen : (l.erase m).length ≤ n := by
        have h1 := List.length_erase_of_mem hm
        have h2 := List.length_pos.mpr (List.ne_nil_of_mem hm)
        omega
      refine List.Pairwise.cons ?_ (grantOrder_pairwise_aux n (l.erase m) hlen)
      intro b hb
      have hb2 : b ∈ l.erase m := (grantOrder_perm_aux n (l.erase m) hlen).mem_iff.mp hb
      exact findMin_min l m hfm b (List.mem_of_mem_erase hb2)

/-- No later dequeue is strictly below an earlier one. -/
theorem grantOrder_pairwise (l : List ResourceRequest) :
    (grantOrder l).Pairwise (fun a b => reqLT b a = false) :=
  grantOrder_pairwise_aux l.length l le_rfl

/-! ### ResourceManager state and `request_resource` (lines 74-271) -/

/-- The scalar state of the `ResourceManager` singleton relevant to the
blocking/granting decisions (`__init__` lines 74-92, `configure` lines
94-99); the pending queue is abstracted by its size for the capacity
check. -/
structure ArbState where
  enabled : Bool
  comfyuiActive : Bool
  currentHighPriority : Option String
  queueSize : Nat
  maxQueueSize : Nat
deriving DecidableEq

/-- `_should_block_request` (lines 165-176): HIGH is never blocked; others
block while ComfyUI is active or a HIGH operation is registered. -/
def should_block_request (s : ArbState) (p : ResourcePriority) : Bool :=
  if p = .high then false
  else s.comfyuiActive || s.currentHighPriority.isSome

/-- How the body of `request_resource` (lines 178-271) classifies a call
before any waiting happens. -/
inductive ReqEntryOutcome where
  /-- The `yield` is reached at once: no holder check left to pass, no
  queuing, no possible `TimeoutError` or `queue.Full`. -/
  | grantedImmediate
  /-- HIGH path (lines 201-219): poll until unblocked or `TimeoutError`. -/
  | highWait
  /-- MEDIUM/LOW blocked with room in the queue (lines 236-271): enqueue
  and wait for the worker or `TimeoutError`. -/
  | queued
  /-- MEDIUM/LOW blocked and the queue is full (lines 233-234):
  `queue.Full` is raised immediately. -/
  | queueFullError
deriving DecidableEq

/-- The branch taken by `request_resource` on entry (lines 194-234):
`if not self.enabled: yield; return` precedes every other check. -/
def request_resource_entry (s : ArbState) (p : ResourcePriority) : ReqEntryOutcome :=
  if s.enabled = false then .grantedImmediate
  else if p = .high then .highWait
  else if should_block_request s p = false then .grantedImmediate
  else if s.maxQueueSize ≤ s.queueSize then .queueFullError
  else .queued

/-- A configuration of the running system: the manager's scalar state plus
the callers currently inside the granted region (between the `yield` and
the end of their `with` block), tagged with their priority. -/
structure ArbRun where
  arb : ArbState
  inside : List (Nat × ResourcePriority)
deriving DecidableEq

/-- The interleaved small-step semantics of `request_resource`
(lines 178-271): each constructor is one atomic action a caller can take.
MEDIUM/LOW immediate grants (lines 222-230) modify no manager state at all;
a HIGH grant records the operation name (lines 207-208) after its poll loop
(lines 201-205) observed `_should_block_request` false; leaving the region
clears `_current_high_priority` only for HIGH holders (lines 217-219). -/
inductive ArbStep : ArbRun → ArbRun → Prop where
  | enterImmediate (c : ArbRun) (cid : Nat) (p : ResourcePriority) :
      c.arb.enabled = true → p ≠ .high →
      should_block_request c.arb p = false →
      ArbStep c { c with inside := (cid, p) :: c.inside }
  | enterHigh (c : ArbRun) (cid : Nat) (op : String) :
      c.arb.enabled = true →
      should_block_request c.arb .high = false →
      ArbStep c { arb := { c.arb with currentHighPriority := some op }
                  inside := (cid, .high) :: c.inside }
  | exitRegion (c : ArbRun) (cid : Nat) (p : ResourcePriority) :
      (cid, p) ∈ c.inside →
      ArbStep c { arb := if p = .high then { c.arb with currentHighPriority := none }
                         else c.arb
                  inside := c.inside.erase (cid, p) }

/-- The manager right after `__init__` (enabled, ComfyUI inactive, no HIGH
operation, empty queue, default capacity 50), with nobody in the region. -/
def initArbRun : ArbRun :=
  ⟨⟨true, false, none, 0, 50⟩, []⟩

/-- Reachability under the interleaving semantics. -/
def ArbReach : ArbRun → ArbRun → Prop := Relation.ReflTransGen ArbStep

/-! ## Claim theorems -/

/-- C9: when the `ResourceManager` is configured with `enabled = False`,
`request_resource` grants every request immediately for every priority —
regardless of ComfyUI activity, of a registered HIGH operation, and of the
queue occupancy — so no holder check, queuing, capacity check,
`TimeoutError` or `queue.Full` can occur. -/
theorem C9_disabled_grants_immediately (comfy : Bool) (chp : Option String)
    (qs mq : Nat) (p : ResourcePriority) :
    request_resource_entry ⟨false, comfy, chp, qs, mq⟩ p =
      ReqEntryOutcome.grantedImmediate := rfl

/-- C6: one mood-drift step computes `current + gain * (target - current)`;
with current 0, target 1, gain 0.25 one step of the code's update
(src/captioner/captioner.py lines 113-114) yields exactly 0.25, the code's
step is the spec filter at gain 1/4, and for any gain fixed in (0,1) the
iterates move monotonically toward the target and never overshoot it, from
either side. -/
theorem C6_mood_drift (t g : ℚ) (hg0 : 0 < g) (hg1 : g < 1) :
    driftStep 0 1 = 1/4
  ∧ (∀ c, driftStep c t = driftMood c t (1/4))
  ∧ (∀ c n, c ≤ t → moodIter t g n c ≤ moodIter t g (n+1) c ∧ moodIter t g (n+1) c ≤ t)
  ∧ (∀ c n, t ≤ c → moodIter t g (n+1) c ≤ moodIter t g n c ∧ t ≤ moodIter t g (n+1) c) := by
  have hiter : ∀ c n, moodIter t g (n+1) c = driftMood (moodIter t g n c) t g := by
    intro c n
    unfold moodIter
    rw [Function.iterate_succ_apply']
  have hstep_le : ∀ x, x ≤ t → driftMood x t g ≤ t := by
    intro x hx
    unfold driftMood
    nlinarith [mul_nonneg (by linarith : (0:ℚ) ≤ 1 - g) (sub_nonneg.mpr hx)]
  have hstep_ge : ∀ x, x ≤ t → x ≤ driftMood x t g := by
    intro x hx
    unfold driftMood
    nlinarith [mul_nonneg hg0.le (sub_nonneg.mpr hx)]
  have hstep_ge' : ∀ x, t ≤ x → t ≤ driftMood x t g := by
    intro x hx
    unfold driftMood
    nlinarith [mul_nonneg (by linarith : (0:ℚ) ≤ 1 - g) (sub_nonneg.mpr hx)]
  have hstep_le' : ∀ x, t ≤ x → driftMood x t g ≤ x := by
    intro x hx
    unfold driftMood
    nlinarith [mul_nonneg hg0.le (sub_nonneg.mpr hx)]
  have hinv : ∀ c, c ≤ t → ∀ n, moodIter t g n c ≤ t := by
    intro c hc n
    induction n with
    | zero => simpa [moodIter] using hc
    | succ n ih =>
      rw [hiter]
      exact hstep_le _ ih
  have hinv' : ∀ c, t ≤ c → ∀ n, t ≤ moodIter t g n c := by
    intro c hc n
    induction n with
    | zero => simpa [moodIter] using hc
    | succ n ih =>
      rw [hiter]
      exact hstep_ge' _ ih
  refine ⟨by norm_num [driftStep], fun c => by norm_num [driftStep, driftMood], ?_, ?_⟩
  · intro c n hc
    refine ⟨?_, hinv c hc (n+1)⟩
    rw [hiter]
    exact hstep_ge _ (hinv c hc n)
  · intro c n hc
    refine ⟨?_, hinv' c hc (n+1)⟩
    rw [hiter]
    exact hstep_le' _ (hinv' c hc n)

/-- Witness for C6 at the concrete values of the spec example. -/
theorem C6_mood_drift_witness :
    (0:ℚ) < 1/4 ∧ (1/4:ℚ) < 1 ∧ driftStep 0 1 = 1/4 :=
  ⟨by norm_num, by norm_num, (C6_mood_drift 1 (1/4) (by norm_num) (by norm_num)).1⟩

/-- C1 is refuted by the code: from the freshly initialized, enabled manager
two LOW callers are granted immediately one after the other — MEDIUM/LOW
grants record no holder state whatsoever (src/utils/resource_manager.py
lines 222-230) and `_should_block_request` only consults `_comfyui_active`
and `_current_high_priority` (lines 165-176) — so both callers are inside
the exclusive region at the same instant.  Mutual exclusion does not hold
even without races. -/
theorem C1_two_simultaneous_holders :
    ∃ c : ArbRun, ArbReach initArbRun c ∧
      (1, ResourcePriority.low) ∈ c.inside ∧
      (2, ResourcePriority.low) ∈ c.inside ∧
      2 ≤ c.inside.length := by
  refine ⟨⟨initArbRun.arb, [(2, .low), (1, .low)]⟩, ?_, by simp, by simp, by simp⟩
  have s1 : ArbStep initArbRun ⟨initArbRun.arb, [(1, .low)]⟩ :=
    ArbStep.enterImmediate initArbRun 1 .low rfl (by decide) rfl
  have s2 : ArbStep ⟨initArbRun.arb, [(1, .low)]⟩
      ⟨initArbRun.arb, [(2, .low), (1, .low)]⟩ :=
    ArbStep.enterImmediate ⟨initArbRun.arb, [(1, .low)]⟩ 2 .low rfl (by decide) rfl
  exact Relation.ReflTransGen.tail (Relation.ReflTransGen.tail .refl s1) s2

theorem absorbLabel_keeps_conf (ts : ℚ) (b k : String) (s : MemState)
    (h1 : alookup s.motifConfidence k = some 1)
    (h2 : alookup s.motifConfirmed k = some true) :
    alookup (absorbLabel ts b s).motifConfidence k = some 1 ∧
    alookup (absorbLabel ts b s).motifConfirmed k = some true := by
  have hconf : (absorbLabel ts b s).motifConfidence =
      aset s.motifConfidence (normalizeLabel b) 1 := rfl
  have hcfm : (absorbLabel ts b s).motifConfirmed =
      aset s.motifConfirmed (normalizeLabel b) true := rfl
  rw [hconf, hcfm]
  by_cases hk : normalizeLabel b = k
  · rw [hk]
    exact ⟨alookup_aset_self _ _ _, alookup_aset_self _ _ _⟩
  · have hne : k ≠ normalizeLabel b := fun hc => hk hc.symm
    rw [alookup_aset_ne _ _ _ _ hne, alookup_aset_ne _ _ _ _ hne]
    exact ⟨h1, h2⟩

theorem absorb_detection_keeps_conf (ts : ℚ) (labels : List String) (k : String) :
    ∀ s : MemState, alookup s.motifConfidence k = some 1 →
      alookup s.motifConfirmed k = some true →
      alookup (absorb_detection ts labels s).motifConfidence k = some 1 ∧
      alookup (absorb_detection ts labels s).motifConfirmed k = some true := by
  induction labels with
  | nil => exact fun s h1 h2 => ⟨h1, h2⟩
  | cons b bs ih =>
    intro s h1 h2
    have hb := absorbLabel_keeps_conf ts b k s h1 h2
    exact ih (absorbLabel ts b s) hb.1 hb.2

theorem absorb_detection_sets_conf (ts : ℚ) (l : String) :
    ∀ (labels : List String), l ∈ labels → ∀ s : MemState,
      alookup (absorb_detection ts labels s).motifConfidence (normalizeLabel l) = some 1 ∧
      alookup (absorb_detection ts labels s).motifConfirmed (normalizeLabel l) = some true := by
  intro labels
  induction labels with
  | nil =>
    intro h
    cases h
  | cons a as ih =>
    intro hl s
    rcases List.mem_cons.mp hl with rfl | hmem
    · refine absorb_detection_keeps_conf ts as (normalizeLabel l) (absorbLabel ts l s) ?_ ?_
      · exact alookup_aset_self _ _ _
      · exact alookup_aset_self _ _ _
    · exact ih hmem (absorbLabel ts a s)

/-- C10: `absorb_detection` stores, for every label, the motif key
`label.lower().rstrip("s")` — so ALL trailing letters `s` are removed
("Chairs" becomes "chair", but "glass" becomes "gla" and "dress" becomes
"dre") — and unconditionally sets that key's confidence to 1.0 and its
confirmed flag to true, whatever the key's previous state was. -/
theorem C10_absorb_detection (s : MemState) (ts : ℚ) (labels : List String)
    (l : String) (hl : l ∈ labels) :
    normalizeLabel "Chairs" = "chair" ∧ normalizeLabel "glass" = "gla" ∧
    normalizeLabel "dress" = "dre" ∧
    alookup (absorb_detection ts labels s).motifConfidence (normalizeLabel l) = some 1 ∧
    alookup (absorb_detection ts labels s).motifConfirmed (normalizeLabel l) = some true :=
  ⟨by decide, by decide, by decide,
   (absorb_detection_sets_conf ts l labels hl s).1,
   (absorb_detection_sets_conf ts l labels hl s).2⟩

/-- Witness for C10 on a state that already holds "gla" as an unconfirmed
low-confidence textual motif: the detection path overwrites both fields. -/
theorem C10_absorb_detection_witness :
    normalizeLabel "Chairs" = "chair" ∧ normalizeLabel "glass" = "gla" ∧
    normalizeLabel "dress" = "dre" ∧
    alookup (absorb_detection 0 ["Chairs", "glass"]
      { initMemState with motifConfidence := [("gla", 2/5)],
                          motifConfirmed := [("gla", false)] }).motifConfidence
      (normalizeLabel "glass") = some 1 ∧
    alookup (absorb_detection 0 ["Chairs", "glass"]
      { initMemState with motifConfidence := [("gla", 2/5)],
                          motifConfirmed := [("gla", false)] }).motifConfirmed
      (normalizeLabel "glass") = some true :=
  C10_absorb_detection
    { initMemState with motifConfidence := [("gla", 2/5)],
                        motifConfirmed := [("gla", false)] }
    0 ["Chairs", "glass"] "glass" (by decide)

/-- C2: pending requests are dequeued by the worker in the total order
"priority value ascending (HIGH = 1 first), then createdAt ascending":
whenever request `a` either has a strictly smaller priority value than `b`,
or has equal priority and was created earlier, `a` is granted before `b`,
whatever the arrival (queue) order was. -/
theorem C2_grant_order (pending : List ResourceRequest) (a b : ResourceRequest)
    (ha : a ∈ pending) (hb : b ∈ pending)
    (h : a.priority.val < b.priority.val ∨
      (a.priority.val = b.priority.val ∧ a.createdAt < b.createdAt)) :
    (grantOrder pending).indexOf a < (grantOrder pending).indexOf b := by
  have hlt : reqLT a b = true := (reqLT_iff a b).mpr h
  have hne : a ≠ b := by
    rintro rfl
    rw [reqLT_irrefl] at hlt
    exact absurd hlt (by simp)
  have hag : a ∈ grantOrder pending := (grantOrder_perm pending).mem_iff.mpr ha
  have hbg : b ∈ grantOrder pending := (grantOrder_perm pending).mem_iff.mpr hb
  have hai : (grantOrder pending).indexOf a < (grantOrder pending).length :=
    List.indexOf_lt_length.mpr hag
  have hbi : (grantOrder pending).indexOf b < (grantOrder pending).length :=
    List.indexOf_lt_length.mpr hbg
  by_contra hcon
  push_neg at hcon
  rcases Nat.eq_or_lt_of_le hcon with heq | hlt2
  · exact hne ((List.indexOf_inj hag hbg).mp heq.symm)
  · have hp := grantOrder_pairwise pending
    rw [List.pairwise_iff_getElem] at hp
    have hfalse := hp ((grantOrder pending).indexOf b) ((grantOrder pending).indexOf a)
      hbi hai hlt2
    rw [List.getElem_indexOf hai, List.getElem_indexOf hbi] at hfalse
    rw [hlt] at hfalse
    exact absurd hfalse (by simp)

/-- Witness for C2: a HIGH request created later than a waiting LOW request
is granted first, and two LOW requests are granted in creation order. -/
theorem C2_grant_order_witness :
    ((grantOrder [⟨.low, "caption", 30, 0⟩, ⟨.high, "draw", 30, 5⟩]).indexOf
        ⟨.high, "draw", 30, 5⟩ <
      (grantOrder [⟨.low, "caption", 30, 0⟩, ⟨.high, "draw", 30, 5⟩]).indexOf
        ⟨.low, "caption", 30, 0⟩) ∧
    ((grantOrder [⟨.low, "later", 30, 5⟩, ⟨.low, "earlier", 30, 1⟩]).indexOf
        ⟨.low, "earlier", 30, 1⟩ <
      (grantOrder [⟨.low, "later", 30, 5⟩, ⟨.low, "earlier", 30, 1⟩]).indexOf
        ⟨.low, "later", 30, 5⟩) :=
  ⟨C2_grant_order _ _ _ (by decide) (by decide) (Or.inl (by decide)),
   C2_grant_order _ _ _ (by decide) (by decide) (Or.inr ⟨rfl, by norm_num⟩)⟩

theorem distress_not_in_empty (key : String) (hk : key ∈ distressKeys) :
    ¬ pyContains (pyLower "") key := by
  simp only [distressKeys, List.mem_cons, List.not_mem_nil, or_false] at hk
  rcases hk with rfl | rfl | rfl <;> decide

/-- C8: `should_draw` returns false whenever the cooldown has not elapsed
since the last registered drawing; otherwise it returns true exactly when
novelty exceeds 0.65, or boredom exceeds 0.7, or mood is below 0.3, or the
optional reflection text contains one of the distress phrases
"i feel stuck", "i need to express", "nothing is changing". -/
theorem C8_should_draw_iff (now : ℚ) (st : DrawingState) (mood novelty boredom : ℚ)
    (reflection : Option String) :
    should_draw now st mood novelty boredom reflection = true ↔
      (st.cooldown < now - st.lastDrawingTime ∧
        (13/20 < novelty ∨ 7/10 < boredom ∨ mood < 3/10 ∨
          ∃ r, reflection = some r ∧ ∃ key ∈ distressKeys, pyContains (pyLower r) key)) := by
  have hready : ready_to_draw now st = true ↔ st.cooldown < now - st.lastDrawingTime := by
    simp [ready_to_draw]
  constructor
  · intro h
    unfold should_draw at h
    by_cases hc : ready_to_draw now st = true
    · refine ⟨hready.mp hc, ?_⟩
      rw [if_neg (not_not_intro hc)] at h
      by_cases h1 : 13/20 < novelty ∨ 7/10 < boredom ∨ mood < 3/10
      · tauto
      · rw [if_neg h1] at h
        rcases hrefl : reflection with _ | r
        · rw [hrefl] at h
          simp at h
        · rw [hrefl] at h
          right; right; right
          refine ⟨r, rfl, ?_⟩
          by_cases hm : (decide (r ≠ "") &&
              distressKeys.any fun key => decide (pyContains (pyLower r) key)) = true
          · have h2 := ((Bool.and_eq_true _ _).mp hm).2
            rcases List.any_eq_true.mp h2 with ⟨key, hk, hkey⟩
            exact ⟨key, hk, of_decide_eq_true hkey⟩
          · exfalso
            rw [if_neg hm] at h
            exact Bool.false_ne_true h
    · rw [if_pos hc] at h
      exact absurd h Bool.false_ne_true
  · rintro ⟨hc, hrest⟩
    unfold should_draw
    have hcb : ready_to_draw now st = true := hready.mpr hc
    rw [if_neg (not_not_intro hcb)]
    by_cases h1 : 13/20 < novelty ∨ 7/10 < boredom ∨ mood < 3/10
    · rw [if_pos h1]
    · rw [if_neg h1]
      rcases hrest with h | h | h | ⟨r, hr, key, hk, hkey⟩
      · exact absurd (Or.inl h) h1
      · exact absurd (Or.inr (Or.inl h)) h1
      · exact absurd (Or.inr (Or.inr h)) h1
      · subst hr
        have hrne : r ≠ "" := by
          rintro rfl
          exact distress_not_in_empty key hk hkey
        have hm : (decide (r ≠ "") &&
            distressKeys.any fun key => decide (pyContains (pyLower r) key)) = true := by
          rw [Bool.and_eq_true]
          exact ⟨decide_eq_true hrne, List.any_eq_true.mpr ⟨key, hk, decide_eq_true hkey⟩⟩
        rw [if_pos hm]

/-- A ledger state with one belief whose motif was last seen longer than
`BELIEF_FADE_TIME` ago: the fade sweep decays it on EVERY call. -/
def fadeExState : MemState :=
  { initMemState with
    motifLastSeen := [("chair", 0)]
    beliefs := [("chair", ⟨1/2, 0, 0⟩)] }

/-- One fade sweep over a single stale belief that stays above the eviction
floor: its strength drops by exactly 0.02 and nothing else changes. -/
theorem fade_single (now : ℚ) (s : MemState) (k : String) (b : Belief)
    (hb : s.beliefs = [(k, b)])
    (hstale : BELIEF_FADE_TIME < now - (alookup s.motifLastSeen k).getD 0)
    (hkeep : 1/5 ≤ b.strength - 1/50) :
    (fade_old_beliefs now s).beliefs = [(k, { b with strength := b.strength - 1/50 })] ∧
    (fade_old_beliefs now s).motifLastSeen = s.motifLastSeen := by
  refine ⟨?_, rfl⟩
  simp only [fade_old_beliefs, hb, List.map_cons, List.map_nil, if_pos hstale,
    List.filter_cons, List.filter_nil]
  rw [decide_eq_true hstale]
  rw [decide_eq_false (not_lt.mpr hkeep)]
  simp

/-- C3 is refuted by the code: at the fixed clock reading 21601 (one second
past the fade timeout) a second `fade_old_beliefs` call on `fadeExState`
decrements the belief's strength by a further 0.02 (0.48 to 0.46), so the
state after the second call differs from the state after the first. -/
theorem C3_fade_counterexample :
    fade_old_beliefs 21601 (fade_old_beliefs 21601 fadeExState) ≠
      fade_old_beliefs 21601 fadeExState := by
  have hlast : alookup fadeExState.motifLastSeen "chair" = some 0 := by
    simp [fadeExState, initMemState, alookup, List.find?]
  have h1 := fade_single 21601 fadeExState "chair" ⟨1/2, 0, 0⟩ rfl
    (by rw [hlast]; norm_num [BELIEF_FADE_TIME]) (by norm_num)
  have h2 := fade_single 21601 (fade_old_beliefs 21601 fadeExState) "chair"
    ⟨1/2 - 1/50, 0, 0⟩ h1.1
    (by rw [h1.2, hlast]; norm_num [BELIEF_FADE_TIME]) (by norm_num)
  intro hcon
  have hbel := congrArg MemState.beliefs hcon
  rw [h2.1, h1.1] at hbel
  have hstr := congrArg (fun l => (alookup l "chair").map Belief.strength) hbel
  simp only [alookup_cons, if_pos rfl, Option.map_some] at hstr
  have : (1:ℚ)/2 - 1/50 - 1/50 = 1/2 - 1/50 := by
    injection hstr
  norm_num at this

/-- C3 amended: the fade sweep at a fixed clock reading is a no-op — and
hence idempotent — only on states in which no belief is stale (every
belief's motif was seen within `BELIEF_FADE_TIME`); when a stale belief
exists, each call decrements its strength again (`C3_fade_counterexample`
is such a state). -/
theorem C3_fade_idempotent_no_stale (now : ℚ) (s : MemState)
    (h : ∀ p ∈ s.beliefs, now - (alookup s.motifLastSeen p.1).getD 0 ≤ BELIEF_FADE_TIME) :
    fade_old_beliefs now s = s ∧
    fade_old_beliefs now (fade_old_beliefs now s) = fade_old_beliefs now s := by
  have hstale : ∀ p ∈ s.beliefs,
      ¬ (BELIEF_FADE_TIME < now - (alookup s.motifLastSeen p.1).getD 0) :=
    fun p hp => not_lt.mpr (h p hp)
  have hfix : fade_old_beliefs now s = s := by
    simp only [fade_old_beliefs]
    have hmap : (s.beliefs.map (fun p =>
        if BELIEF_FADE_TIME < now - (alookup s.motifLastSeen p.1).getD 0
        then (p.1, { p.2 with strength := p.2.strength - 1/50 }) else p)) = s.beliefs := by
      have h1 : ∀ p ∈ s.beliefs, (fun p =>
          if BELIEF_FADE_TIME < now - (alookup s.motifLastSeen p.1).getD 0
          then (p.1, { p.2 with strength := p.2.strength - 1/50 }) else p) p = id p :=
        fun p hp => by simp [if_neg (hstale p hp)]
      rw [List.map_congr_left h1, List.map_id]
    rw [hmap]
    have hfaded : (s.beliefs.filter (fun p =>
        decide (BELIEF_FADE_TIME < now - (alookup s.motifLastSeen p.1).getD 0) &&
        decide (p.2.strength < 1/5))) = [] := by
      rw [List.filter_eq_nil_iff]
      intro p hp
      simp [decide_eq_false (hstale p hp)]
    rw [hfaded]
    simp
  exact ⟨hfix, by rw [hfix, hfix]⟩

/-- Witness for the amended C3 on a fresh belief seen 100 seconds ago. -/
theorem C3_fade_idempotent_witness :
    fade_old_beliefs 200 { initMemState with
        motifLastSeen := [("home", 100)]
        beliefs := [("home", ⟨1/2, 0, 0⟩)] } =
      { initMemState with
        motifLastSeen := [("home", 100)]
        beliefs := [("home", ⟨1/2, 0, 0⟩)] } ∧
    fade_old_beliefs 200 (fade_old_beliefs 200 { initMemState with
        motifLastSeen := [("home", 100)]
        beliefs := [("home", ⟨1/2, 0, 0⟩)] }) =
      fade_old_beliefs 200 { initMemState with
        motifLastSeen := [("home", 100)]
        beliefs := [("home", ⟨1/2, 0, 0⟩)] } :=
  C3_fade_idempotent_no_stale 200 _ (by
    intro p hp
    rw [List.mem_singleton.mp hp]
    norm_num [alookup, List.find?, BELIEF_FADE_TIME, initMemState])

/-! Projection lemmas: which fields each memory operation leaves alone. -/

theorem fade_noveltyScore (now : ℚ) (s : MemState) :
    (fade_old_beliefs now s).noveltyScore = s.noveltyScore := rfl

theorem update_boredom_noveltyScore (s : MemState) :
    (update_boredom s).noveltyScore = s.noveltyScore := rfl

theorem update_beliefs_memoryQueue (now : ℚ) (s : MemState) :
    (update_beliefs now s).memoryQueue = s.memoryQueue := rfl

theorem semantic_memoryQueue (c : String) (s : MemState) :
    (extract_semantic_motifs c s).memoryQueue = s.memoryQueue := rfl

theorem absorbTextualWord_memoryQueue (now : ℚ) (w : String) (s : MemState) :
    (absorbTextualWord now w s).memoryQueue = s.memoryQueue := by
  unfold absorbTextualWord
  split <;> rfl

theorem extract_memoryQueue (now : ℚ) (c : String) :
    ∀ s : MemState, (extract_motifs_from_caption now c s).memoryQueue = s.memoryQueue := by
  unfold extract_motifs_from_caption
  generalize pyWords (pyLower c) = ws
  induction ws with
  | nil => intro s; rfl
  | cons w ws ih =>
    intro s
    rw [List.foldl_cons, ih, absorbTextualWord_memoryQueue]

theorem focus_streak_memoryQueue (now : ℚ) (m : String) (s : MemState) :
    (update_motif_focus_streak now m s).memoryQueue = s.memoryQueue := by
  unfold update_motif_focus_streak
  split <;> rfl

theorem focus_fold_memoryQueue (now : ℚ) :
    ∀ (ms : List String) (s : MemState),
      (List.foldl (fun st m => update_motif_focus_streak now m st) s ms).memoryQueue =
        s.memoryQueue := by
  intro ms
  induction ms with
  | nil => intro s; rfl
  | cons m ms ih =>
    intro s
    rw [List.foldl_cons, ih, focus_streak_memoryQueue]

theorem estimate_novelty_memoryQueue (s : MemState) :
    (estimate_novelty s).memoryQueue = s.memoryQueue := by
  unfold estimate_novelty
  split <;> rfl

theorem estimate_novelty_score (s : MemState) :
    (estimate_novelty s).noveltyScore =
      if s.memoryQueue.length < 2 then 1
      else if pyLower (((s.memoryQueue.getLast?).map Entry.text).getD "") ≠
              pyLower (((s.memoryQueue.dropLast.getLast?).map Entry.text).getD "")
           then 1 else 0 := by
  unfold estimate_novelty
  split <;> rfl

/-- The novelty score `observe` leaves in the state is the one
`estimate_novelty` computes on the queue with the new entry appended (the
later `update_boredom` / `fade_old_beliefs` steps do not touch it). -/
theorem observe_noveltyScore (t : String) (mood now : ℚ) (s : MemState) :
    (observe t mood now s).noveltyScore =
      (let q := pushBounded MAX_MEMORY_ENTRIES s.memoryQueue
        ⟨Int.floor now, pyStrip t, mood, "", "observation"⟩
      if q.length < 2 then 1
      else if pyLower ((q.getLast?.map Entry.text).getD "") ≠
              pyLower ((q.dropLast.getLast?.map Entry.text).getD "")
           then 1 else 0) := by
  unfold observe
  simp only [fade_noveltyScore, update_boredom_noveltyScore, estimate_novelty_score,
    update_beliefs_memoryQueue, focus_fold_memoryQueue, semantic_memoryQueue,
    extract_memoryQueue]

/-- The queue `observe` leaves behind: the stripped text appended, bounded. -/
theorem observe_memoryQueue (t : String) (mood now : ℚ) (s : MemState) :
    (observe t mood now s).memoryQueue =
      pushBounded MAX_MEMORY_ENTRIES s.memoryQueue
        ⟨Int.floor now, pyStrip t, mood, "", "observation"⟩ := by
  unfold observe
  simp only [show ∀ n x, (fade_old_beliefs n x).memoryQueue = x.memoryQueue from fun _ _ => rfl,
    show ∀ x : MemState, (update_boredom x).memoryQueue = x.memoryQueue from fun _ => rfl,
    estimate_novelty_memoryQueue, update_beliefs_memoryQueue, focus_fold_memoryQueue,
    semantic_memoryQueue, extract_memoryQueue]

theorem pushBounded_snoc (cap : Nat) (hcap : 2 ≤ cap) (q : List Entry) (pe e : Entry) :
    ∃ r : List Entry, pushBounded cap (q ++ [pe]) e = r ++ [pe, e] := by
  unfold pushBounded
  by_cases hlen : cap < ((q ++ [pe]) ++ [e]).length
  · rw [if_pos hlen]
    refine ⟨q.drop (((q ++ [pe]) ++ [e]).length - cap), ?_⟩
    have hle : ((q ++ [pe]) ++ [e]).length - cap ≤ q.length := by
      simp only [List.length_append, List.length_singleton]
      omega
    rw [show (q ++ [pe]) ++ [e] = q ++ [pe, e] by simp]
    rw [List.drop_append_of_le_length (by simpa using hle)]
  · rw [if_neg hlen]
    exact ⟨q, by simp⟩

/-- C5: the novelty signal of a new Observation is 1.0 when there is no
previous Observation; with a previous Observation it is 0 exactly when the
normalized (stripped, lowercased) new text coincides with the lowercased
previous entry text, and 1 — never anything else and never an error —
whenever the two differ. -/
theorem C5_novelty_signal (s : MemState) (t : String) (mood now : ℚ) :
    (s.memoryQueue = [] → (observe t mood now s).noveltyScore = 1)
  ∧ (∀ pe rest, s.memoryQueue = rest ++ [pe] →
      ((observe t mood now s).noveltyScore =
        if pyLower (pyStrip t) ≠ pyLower pe.text then 1 else 0)
    ∧ ((observe t mood now s).noveltyScore = 0 ↔ pyLower (pyStrip t) = pyLower pe.text)) := by
  constructor
  · intro hq
    rw [observe_noveltyScore, hq]
    simp [pushBounded, MAX_MEMORY_ENTRIES]
  · intro pe rest hq
    have hmain : (observe t mood now s).noveltyScore =
        if pyLower (pyStrip t) ≠ pyLower pe.text then 1 else 0 := by
      rw [observe_noveltyScore, hq]
      obtain ⟨r, hr⟩ := pushBounded_snoc MAX_MEMORY_ENTRIES (by norm_num [MAX_MEMORY_ENTRIES])
        rest pe ⟨Int.floor now, pyStrip t, mood, "", "observation"⟩
      simp only []
      rw [hr]
      rw [if_neg (by simp)]
      rw [show r ++ [pe, (⟨Int.floor now, pyStrip t, mood, "", "observation"⟩ : Entry)] =
        (r ++ [pe]) ++ [⟨Int.floor now, pyStrip t, mood, "", "observation"⟩] by simp]
      rw [List.getLast?_concat, List.dropLast_concat, List.getLast?_concat]
      rfl
    refine ⟨hmain, ?_⟩
    rw [hmain]
    by_cases hne : pyLower (pyStrip t) ≠ pyLower pe.text
    · rw [if_pos hne]
      simp [hne]
    · rw [if_neg hne]
      simp [not_not.mp hne]

/-- Witness for C5: the very first Observation has novelty 1; repeating the
same caption right after gives novelty 0. -/
theorem C5_novelty_signal_witness :
    (observe "a red chair" (1/2) 0 initMemState).noveltyScore = 1 ∧
    (observe "a red chair" (1/2) 1
      (observe "a red chair" (1/2) 0 initMemState)).noveltyScore = 0 := by
  constructor
  · exact (C5_novelty_signal initMemState "a red chair" (1/2) 0).1 rfl
  · have hq : (observe "a red chair" (1/2) 0 initMemState).memoryQueue =
        [] ++ [⟨Int.floor (0:ℚ), pyStrip "a red chair", 1/2, "", "observation"⟩] := by
      rw [observe_memoryQueue]
      simp [pushBounded, initMemState, MAX_MEMORY_ENTRIES]
    exact ((C5_novelty_signal _ "a red chair" (1/2) 1).2 _ [] hq).2.mpr rfl

/-! Characterization of the `update_beliefs` promotion loop. -/

theorem beliefFold_lookup_not_mem (now : ℚ) (fs : List (String × ℚ)) :
    ∀ (items : List (String × Nat)) (bel : List (String × Belief)) (k : String),
      k ∉ items.map Prod.fst →
      alookup (items.foldl (beliefUpdateStep now fs) bel) k = alookup bel k := by
  intro items
  induction items with
  | nil => intro bel k _; rfl
  | cons it its ih =>
    intro bel k h
    simp only [List.map_cons, List.mem_cons, not_or] at h
    rw [List.foldl_cons, ih _ k h.2]
    simp only [beliefUpdateStep]
    split
    · exact alookup_aset_ne _ _ _ _ h.1
    · rfl

theorem beliefFold_lookup (now : ℚ) (fs : List (String × ℚ)) :
    ∀ (items : List (String × Nat)) (bel : List (String × Belief)) (k : String),
      (items.map Prod.fst).Nodup →
      alookup (items.foldl (beliefUpdateStep now fs) bel) k =
        match items.find? (fun p => p.1 = k) with
        | some (_, c) =>
          if BELIEF_THRESHOLD ≤ c ∧
             BELIEF_FORM_MIN_DAYS ≤ (now - ((alookup fs k).getD now)) / 86400
          then some ⟨min 1 ((((alookup bel k).map Belief.strength).getD (1/2)) + 1/50),
                     (alookup fs k).getD now, now⟩
          else alookup bel k
        | none => alookup bel k := by
  intro items
  induction items with
  | nil => intro bel k _; rfl
  | cons it its ih =>
    intro bel k hnd
    simp only [List.map_cons, List.nodup_cons] at hnd
    by_cases hm : it.1 = k
    · -- the head is the entry for k; the tail never touches k again
      have hfc : List.find? (fun p => decide (p.1 = k)) (it :: its) = some it := by
        simp [List.find?_cons_of_pos, hm]
      rw [List.foldl_cons, beliefFold_lookup_not_mem now fs its _ k (hm ▸ hnd.1)]
      rw [hfc]
      simp only [beliefUpdateStep, hm]
      split
      · rename_i hq
        rw [alookup_aset_self]
      · rename_i hq
        rfl
    · have hfc : List.find? (fun p => decide (p.1 = k)) (it :: its) =
          List.find? (fun p => decide (p.1 = k)) its := by
        exact List.find?_cons_of_neg _ (by simp [hm])
      have halookup : alookup (beliefUpdateStep now fs bel it) k = alookup bel k := by
        simp only [beliefUpdateStep]
        split
        · exact alookup_aset_ne _ _ _ _ (fun hc => hm hc.symm)
        · rfl
      rw [List.foldl_cons, ih _ k hnd.2, hfc]
      cases hfind : List.find? (fun p => decide (p.1 = k)) its with
      | none => exact halookup
      | some q => rw [halookup]

theorem alookup_eq_find {α : Type} (l : List (String × α)) (k : String) :
    alookup l k = (l.find? (fun p => decide (p.1 = k))).map (·.2) := rfl

theorem update_beliefs_beliefs (now : ℚ) (s : MemState) :
    (update_beliefs now s).beliefs =
      s.motifCounter.foldl (beliefUpdateStep now s.motifFirstSeen) s.beliefs := rfl

/-- C7: a belief is created for a motif only when its count has reached
`BELIEF_THRESHOLD` (7) AND its age in days (now − firstSeen) is at least
`BELIEF_FORM_MIN_DAYS` (0.25), both at the same `update_beliefs` call; a
qualifying reinforcement sets the strength to
`min 1 (previous + 0.02)` (previous defaulting to 0.5), so strengths never
exceed 1.0. -/
theorem C7_belief_promotion (s : MemState) (now : ℚ) (k : String)
    (hnd : (s.motifCounter.map Prod.fst).Nodup)
    (hinv : ∀ k' b, alookup s.beliefs k' = some b → b.strength ≤ 1) :
    (alookup s.beliefs k = none → (alookup (update_beliefs now s).beliefs k).isSome →
       ∃ c, alookup s.motifCounter k = some c ∧ BELIEF_THRESHOLD ≤ c ∧
         BELIEF_FORM_MIN_DAYS ≤ (now - ((alookup s.motifFirstSeen k).getD now)) / 86400)
  ∧ (∀ c, alookup s.motifCounter k = some c →
       BELIEF_THRESHOLD ≤ c →
       BELIEF_FORM_MIN_DAYS ≤ (now - ((alookup s.motifFirstSeen k).getD now)) / 86400 →
       (alookup (update_beliefs now s).beliefs k).map Belief.strength =
         some (min 1 ((((alookup s.beliefs k).map Belief.strength).getD (1/2)) + 1/50)))
  ∧ (∀ b, alookup (update_beliefs now s).beliefs k = some b → b.strength ≤ 1) := by
  have hchar := beliefFold_lookup now s.motifFirstSeen s.motifCounter s.beliefs k hnd
  rw [update_beliefs_beliefs]
  refine ⟨?_, ?_, ?_⟩
  · intro hnone hsome
    rw [hchar] at hsome
    split at hsome
    · rename_i fst c heq
      split at hsome
      · rename_i hq
        refine ⟨c, ?_, hq.1, hq.2⟩
        rw [alookup_eq_find, heq]
        rfl
      · rw [hnone] at hsome
        simp at hsome
    · rw [hnone] at hsome
      simp at hsome
  · intro c hc hcount hage
    have hfind0 : (List.find? (fun p => decide (p.1 = k)) s.motifCounter).map (·.2) =
        some c := by
      rw [← alookup_eq_find]
      exact hc
    rcases hof : List.find? (fun p => decide (p.1 = k)) s.motifCounter with _ | ⟨fst, c'⟩
    · rw [hof] at hfind0
      exact Option.noConfusion hfind0
    · rw [hof] at hfind0
      have hc' : c' = c := by simpa using hfind0
      subst hc'
      rw [hchar]
      simp only [hof]
      rw [if_pos ⟨hcount, hage⟩]
      rfl
  · intro b hb
    rw [hchar] at hb
    split at hb
    · split at hb
      · cases hb
        exact min_le_left _ _
      · exact hinv k b hb
    · exact hinv k b hb

/-- Witness for C7 at a motif whose count is exactly 7 and whose age is
exactly 0.25 days: a fresh belief with strength `min 1 (0.5 + 0.02)`. -/
theorem C7_belief_promotion_witness :
    (alookup (update_beliefs 21600 { initMemState with
        motifCounter := [("window", 7)]
        motifFirstSeen := [("window", 0)] }).beliefs "window").map Belief.strength =
      some (min 1 (1/2 + 1/50)) := by
  have h := (C7_belief_promotion { initMemState with
      motifCounter := [("window", 7)]
      motifFirstSeen := [("window", 0)] } 21600 "window"
    (by decide)
    (by
      intro k' b hb
      simp [initMemState, alookup] at hb)).2.1
  have h2 := h 7 (by simp [initMemState, alookup, List.find?])
    (by norm_num [BELIEF_THRESHOLD])
    (by
      have : alookup ({ initMemState with
          motifCounter := [("window", 7)]
          motifFirstSeen := [("window", 0)] } : MemState).motifFirstSeen "window" =
          some 0 := by simp [initMemState, alookup, List.find?]
      rw [this]
      norm_num [BELIEF_FORM_MIN_DAYS])
  rw [h2]
  simp [initMemState, alookup]

/-! Motif-count accounting (C4). -/

/-- What one Observation's text contributes to a motif key's count through
`extract_motifs_from_caption`: one increment per OCCURRENCE of the key as a
word of length > 3 in the lowercased caption. -/
def textualOcc (k caption : String) : Nat :=
  ((pyWords (pyLower caption)).filter (fun w => 3 < w.length)).count k

/-- What one detector batch contributes to a motif key's count through
`absorb_detection`: one increment per label whose normalized form is the
key. -/
def detOcc (k : String) (labels : List String) : Nat :=
  (labels.filter (fun l => normalizeLabel l = k)).length

/-- The count contribution of one event to one key. -/
def eventContribution (k : String) : MemEvent → Nat
  | .obs t _ _ => textualOcc k t
  | .det ls _ => detOcc k ls

theorem counterIncr_lookup (c : List (String × Nat)) (k m : String) :
    (alookup (counterIncr c m) k).getD 0 =
      (alookup c k).getD 0 + (if m = k then 1 else 0) := by
  unfold counterIncr
  by_cases hm : m = k
  · subst hm
    rw [alookup_aset_self]
    simp
  · rw [alookup_aset_ne _ _ _ _ (fun hc => hm hc.symm)]
    simp [hm]

theorem absorbTextualWord_motifCounter (now : ℚ) (w : String) (s : MemState) :
    (absorbTextualWord now w s).motifCounter =
      if 3 < w.length then counterIncr s.motifCounter w else s.motifCounter := by
  unfold absorbTextualWord
  split <;> rfl

theorem wordsFold_count (now : ℚ) (k : String) :
    ∀ (ws : List String) (s : MemState),
      (alookup (List.foldl (fun st w => absorbTextualWord now w st) s ws).motifCounter k).getD 0 =
        (alookup s.motifCounter k).getD 0 + (ws.filter (fun w => 3 < w.length)).count k := by
  intro ws
  induction ws with
  | nil =>
    intro s
    simp
  | cons w ws ih =>
    intro s
    rw [List.foldl_cons, ih, absorbTextualWord_motifCounter]
    by_cases hw : 3 < w.length
    · rw [if_pos hw, counterIncr_lookup]
      rw [List.filter_cons_of_pos (by simpa using hw)]
      by_cases hk : w = k
      · subst hk
        rw [List.count_cons_self]
        simp only [if_true]
        omega
      · rw [List.count_cons_of_ne (fun hc => hk hc.symm)]
        simp [hk]
    · rw [if_neg hw, List.filter_cons_of_neg (by simpa using hw)]

theorem extract_count (now : ℚ) (c : String) (k : String) (s : MemState) :
    (alookup (extract_motifs_from_caption now c s).motifCounter k).getD 0 =
      (alookup s.motifCounter k).getD 0 + textualOcc k c := by
  unfold extract_motifs_from_caption textualOcc
  exact wordsFold_count now k (pyWords (pyLower c)) s

/-! Projection lemmas: the other `observe` stages never touch the counter. -/

theorem update_beliefs_motifCounter (now : ℚ) (s : MemState) :
    (update_beliefs now s).motifCounter = s.motifCounter := rfl

theorem fade_motifCounter (now : ℚ) (s : MemState) :
    (fade_old_beliefs now s).motifCounter = s.motifCounter := rfl

theorem update_boredom_motifCounter (s : MemState) :
    (update_boredom s).motifCounter = s.motifCounter := rfl

theorem estimate_novelty_motifCounter (s : MemState) :
    (estimate_novelty s).motifCounter = s.motifCounter := by
  unfold estimate_novelty
  split <;> rfl

theorem focus_streak_motifCounter (now : ℚ) (m : String) (s : MemState) :
    (update_motif_focus_streak now m s).motifCounter = s.motifCounter := by
  unfold update_motif_focus_streak
  split <;> rfl

theorem focus_fold_motifCounter (now : ℚ) :
    ∀ (ms : List String) (s : MemState),
      (List.foldl (fun st m => update_motif_focus_streak now m st) s ms).motifCounter =
        s.motifCounter := by
  intro ms
  induction ms with
  | nil => intro s; rfl
  | cons m ms ih =>
    intro s
    rw [List.foldl_cons, ih, focus_streak_motifCounter]

theorem observe_count (t : String) (mood now : ℚ) (s : MemState) (k : String) :
    (alookup (observe t mood now s).motifCounter k).getD 0 =
      (alookup s.motifCounter k).getD 0 + textualOcc k t := by
  unfold observe
  simp only [fade_motifCounter, update_boredom_motifCounter, estimate_novelty_motifCounter,
    update_beliefs_motifCounter, focus_fold_motifCounter]
  exact extract_count now t k _

theorem absorbLabel_motifCounter (ts : ℚ) (lb : String) (s : MemState) :
    (absorbLabel ts lb s).motifCounter = counterIncr s.motifCounter (normalizeLabel lb) := rfl

theorem absorb_detection_count (ts : ℚ) (k : String) :
    ∀ (labels : List String) (s : MemState),
      (alookup (absorb_detection ts labels s).motifCounter k).getD 0 =
        (alookup s.motifCounter k).getD 0 + detOcc k labels := by
  intro labels
  induction labels with
  | nil =>
    intro s
    simp [absorb_detection, detOcc]
  | cons lb lbs ih =>
    intro s
    show (alookup (absorb_detection ts lbs (absorbLabel ts lb s)).motifCounter k).getD 0 = _
    rw [ih, absorbLabel_motifCounter, counterIncr_lookup]
    unfold detOcc
    by_cases hk : normalizeLabel lb = k
    · rw [List.filter_cons_of_pos (by simpa using hk)]
      simp [hk]
      omega
    · rw [List.filter_cons_of_neg (by simpa using hk)]
      simp [hk, detOcc]

theorem runEvents_count_aux (k : String) :
    ∀ (evs : List MemEvent) (s : MemState),
      (alookup (evs.foldl applyEvent s).motifCounter k).getD 0 =
        (alookup s.motifCounter k).getD 0 + (evs.map (eventContribution k)).sum := by
  intro evs
  induction evs with
  | nil =>
    intro s
    simp
  | cons ev evs ih =>
    intro s
    rw [List.foldl_cons, ih]
    cases ev with
    | obs t m n =>
      rw [List.map_cons, List.sum_cons,
        show applyEvent s (MemEvent.obs t m n) = observe t m n s from rfl, observe_count]
      simp only [eventContribution]
      omega
    | det ls n =>
      rw [List.map_cons, List.sum_cons,
        show applyEvent s (MemEvent.det ls n) = absorb_detection n ls s from rfl,
        absorb_detection_count]
      simp only [eventContribution]
      omega

/-- C4 amended: over any event sequence, a motif key's stored count equals
the TOTAL number of occurrences of the key among the words of length > 3 of
each Observation's lowercased text (so one Observation can contribute more
than 1, once per occurrence), plus the number of direct high-confidence
absorptions whose normalized label is that key (the semantic spaCy
extractor being unavailable, its fallback path contributes nothing). -/
theorem C4_motif_count (evs : List MemEvent) (k : String) :
    (alookup (runEvents evs).motifCounter k).getD 0 =
      (evs.map (eventContribution k)).sum := by
  have h := runEvents_count_aux k evs initMemState
  rw [runEvents, h]
  simp [initMemState, alookup]

/-- C4 as stated is refuted: the single Observation "chair chair chair"
contributes 3 to the count of "chair" (one per occurrence), not at most 1. -/
theorem C4_motif_count_counterexample :
    (alookup (runEvents [.obs "chair chair chair" (1/2) 0]).motifCounter "chair").getD 0 = 3 ∧
    ¬ ((alookup (runEvents [.obs "chair chair chair" (1/2) 0]).motifCounter
        "chair").getD 0 ≤ 1) := by
  have h3 : (alookup (runEvents [.obs "chair chair chair" (1/2) 0]).motifCounter
      "chair").getD 0 = 3 := by
    rw [show runEvents [.obs "chair chair chair" (1/2) 0] =
      observe "chair chair chair" (1/2) 0 initMemState from rfl]
    rw [observe_count]
    rw [show textualOcc "chair" "chair chair chair" = 3 from by decide]
    simp [initMemState, alookup]
  exact ⟨h3, by rw [h3]; omega⟩

end LoveYourself
